import Mathlib

/-!
Verification of the codex agent turn engine against its specification.

The definitions below are shallow embeddings of the TypeScript sources:

* the command safety classifier (`approvals.ts`, provided as
  `src/unnamed/part_002`): `isSafeCommand`, `isEntireShellExpressionSafe`,
  `canAutoApprove`, `canAutoApproveApplyPatch`, `tryParseApplyPatch`,
  `pathContains` and friends;
* the sandbox executor (`src/codex-cli/src/utils/agent/sandbox/raw-exec.ts`):
  bounded stdout/stderr capture and exit-code mapping;
* the agent loop (`src/codex-cli/src/utils/agent/agent-loop.ts`):
  `handleFunctionCall`, `cancel`, the pending-abort drain at the start of
  `run()`, and the streaming retry loop.

External boundaries (the `shell-quote` parser, the OpenAI client, the child
process, `os.constants.signals`, `process.env`, `process.cwd()`) are
parameters of the embedded functions: the embedding quantifies over their
possible results.  JavaScript numbers are modelled as exact arithmetic
(`Int`/`Nat`/`Rat`).  Two definitions that live in repository files that were
not provided (`identify_files_needed` / `identify_files_added` of the patch
engine) are modelled from the specification and say so in their doc comments.
-/

/-! ## Safety classifier: data model (`src/unnamed/part_002`) -/

/-- `SafeCommandReason` of approvals.ts: the (reason, group) pair returned for
a known-safe command. -/
structure SafeCommandReason where
  reason : String
  group : String
deriving DecidableEq, Repr

/-- `ApprovalPolicy` of approvals.ts: `"suggest" | "auto-edit" | "full-auto"`. -/
inductive ApprovalPolicy where
  | suggest
  | autoEdit
  | fullAuto
deriving DecidableEq, Repr

/-- `SafetyAssessment` of approvals.ts: the tagged union
`auto-approve {runInSandbox, reason, group} | ask-user | reject {reason}`,
each variant optionally carrying the `applyPatch` argument. -/
inductive SafetyAssessment where
  | autoApprove (runInSandbox : Bool) (reason : String) (group : String)
      (applyPatch : Option String)
  | askUser (applyPatch : Option String)
  | reject (reason : String)
deriving DecidableEq, Repr

/-- `isValidSedNArg` of approvals.ts: `arg != null && /^(\d+,)?\d+p$/.test(arg)`.
The regular expression is unfolded into an explicit scan over the characters:
one non-empty digit run, optionally preceded by another digit run and a comma,
terminated by a single `p`. -/
def sedNArgChars (cs : List Char) : Bool :=
  let firstRun := cs.takeWhile Char.isDigit
  if firstRun.isEmpty then false
  else
    match cs.drop firstRun.length with
    | ['p'] => true
    | ',' :: rest =>
      let secondRun := rest.takeWhile Char.isDigit
      if secondRun.isEmpty then false
      else rest.drop secondRun.length = ['p']
    | _ => false

def isValidSedNArg (arg : Option String) : Bool :=
  match arg with
  | none => false
  | some s => sedNArgChars s.data

/-- `isSafeCommand` of approvals.ts: the switch over `cmd0` (with `cmd1`,
`cmd2`, `cmd3` the destructured next arguments).  Mirrors the source
case-for-case; in TypeScript the destructuring yields `undefined` past the end
of the array, modelled by `Option` via `l[i]?`. -/
def isSafeCommand (command : List String) : Option SafeCommandReason :=
  let cmd0 := command[0]?
  let cmd1 := command[1]?
  let cmd2 := command[2]?
  let cmd3 := command[3]?
  if cmd0 = some "cd" then some ⟨"Change directory", "Navigating"⟩
  else if cmd0 = some "ls" then some ⟨"List directory", "Searching"⟩
  else if cmd0 = some "pwd" then some ⟨"Print working directory", "Navigating"⟩
  else if cmd0 = some "true" then some ⟨"No‑op (true)", "Utility"⟩
  else if cmd0 = some "echo" then some ⟨"Echo string", "Printing"⟩
  else if cmd0 = some "cat" then some ⟨"View file contents", "Reading files"⟩
  else if cmd0 = some "rg" then some ⟨"Ripgrep search", "Searching"⟩
  else if cmd0 = some "find" then some ⟨"Find files or directories", "Searching"⟩
  else if cmd0 = some "grep" then some ⟨"Text search (grep)", "Searching"⟩
  else if cmd0 = some "head" then some ⟨"Show file head", "Reading files"⟩
  else if cmd0 = some "tail" then some ⟨"Show file tail", "Reading files"⟩
  else if cmd0 = some "wc" then some ⟨"Word count", "Reading files"⟩
  else if cmd0 = some "which" then some ⟨"Locate command", "Searching"⟩
  else if cmd0 = some "git" then
    if cmd1 = some "status" then some ⟨"Git status", "Versioning"⟩
    else if cmd1 = some "branch" then some ⟨"List Git branches", "Versioning"⟩
    else if cmd1 = some "log" then some ⟨"Git log", "Using git"⟩
    else if cmd1 = some "diff" then some ⟨"Git diff", "Using git"⟩
    else if cmd1 = some "show" then some ⟨"Git show", "Using git"⟩
    else none
  else if cmd0 = some "cargo" then
    if cmd1 = some "check" then some ⟨"Cargo check", "Running command"⟩
    else none
  else if cmd0 = some "sed" then
    if cmd1 = some "-n" ∧ isValidSedNArg cmd2 = true ∧ cmd3.isSome = true ∧
        command.length = 4 then
      some ⟨"Sed print subset", "Reading files"⟩
    else none
  else none

/-- C10: the thirteen argument-insensitive read-only verbs (`cd`, `ls`, `pwd`,
`true`, `echo`, `cat`, `rg`, `find`, `grep`, `head`, `tail`, `wc`, `which`)
are accepted by `isSafeCommand` regardless of the remaining arguments; every
verb other than these thirteen and `git` / `cargo` / `sed` is classified
independently of its arguments as well (always unsafe); and for `git`, `cargo`
and `sed` the shape of the following arguments decides the answer, exhibited
by an accepted and a rejected argument list for each. -/
theorem c10_isSafeCommand_arity :
    (∀ v ∈ (["cd", "ls", "pwd", "true", "echo", "cat", "rg", "find", "grep",
        "head", "tail", "wc", "which"] : List String),
      ∀ rest : List String, (isSafeCommand (v :: rest)).isSome = true) ∧
    (∀ c0 : String, c0 ∉ (["git", "cargo", "sed"] : List String) →
      ∀ r1 r2 : List String,
        (isSafeCommand (c0 :: r1)).isSome = (isSafeCommand (c0 :: r2)).isSome) ∧
    ((isSafeCommand ["git", "status"]).isSome = true ∧
      (isSafeCommand ["git", "push"]).isSome = false) ∧
    ((isSafeCommand ["cargo", "check"]).isSome = true ∧
      (isSafeCommand ["cargo", "build"]).isSome = false) ∧
    ((isSafeCommand ["sed", "-n", "1,5p", "file.txt"]).isSome = true ∧
      (isSafeCommand ["sed", "-i", "s/a/b/", "file.txt"]).isSome = false) := by
  refine ⟨?_, ?_, by decide, by decide, by decide⟩
  · intro v hv rest
    fin_cases hv <;> simp [isSafeCommand]
  · intro c0 h r1 r2
    simp only [List.mem_cons, List.mem_singleton, not_or] at h
    obtain ⟨hg, hc, hs⟩ := h
    by_cases h1 : c0 = "cd"
    · simp [isSafeCommand, h1]
    by_cases h2 : c0 = "ls"
    · simp [isSafeCommand, h2]
    by_cases h3 : c0 = "pwd"
    · simp [isSafeCommand, h3]
    by_cases h4 : c0 = "true"
    · simp [isSafeCommand, h4]
    by_cases h5 : c0 = "echo"
    · simp [isSafeCommand, h5]
    by_cases h6 : c0 = "cat"
    · simp [isSafeCommand, h6]
    by_cases h7 : c0 = "rg"
    · simp [isSafeCommand, h7]
    by_cases h8 : c0 = "find"
    · simp [isSafeCommand, h8]
    by_cases h9 : c0 = "grep"
    · simp [isSafeCommand, h9]
    by_cases h10 : c0 = "head"
    · simp [isSafeCommand, h10]
    by_cases h11 : c0 = "tail"
    · simp [isSafeCommand, h11]
    by_cases h12 : c0 = "wc"
    · simp [isSafeCommand, h12]
    by_cases h13 : c0 = "which"
    · simp [isSafeCommand, h13]
    simp [isSafeCommand, h1, h2, h3, h4, h5, h6, h7, h8, h9, h10, h11, h12,
      h13, hg, hc, hs]

/-! ## Shell expression safety (`isEntireShellExpressionSafe`) -/

/-- `ParseEntry` of the external `shell-quote` parser, as consumed by
approvals.ts: a plain word, an operator token (`{op: string}`, which also
covers glob entries `{op: "glob", pattern}` since the classifier only reads
the `op` field), or any other object (e.g. a comment entry), which the
classifier treats as an unknown token type. -/
inductive ParseEntry where
  | str (s : String)
  | op (o : String)
  | comment (c : String)
deriving DecidableEq, Repr

/-- `SAFE_SHELL_OPERATORS` of approvals.ts: `&&`, `||`, `|`, `;`. -/
def SAFE_SHELL_OPERATORS : List String := ["&&", "||", "|", ";"]

/-- The loop body of `isEntireShellExpressionSafe`: walk the parse entries
keeping the current segment (`currentSegment`) and the first successful
assessment (`firstReason`).  A word that is `(`, `)`, `{` or `}` is unsafe; an
operator flushes the segment through `isSafeCommand` and must itself be in
`SAFE_SHELL_OPERATORS`; an unknown token type is unsafe; at the end the
trailing segment is flushed and `firstReason` is returned. -/
def shellLoop : List ParseEntry → List String → Option SafeCommandReason →
    Option SafeCommandReason
  | [], seg, first =>
    if seg.isEmpty then first
    else
      match isSafeCommand seg with
      | none => none
      | some r => some (first.getD r)
  | .str s :: rest, seg, first =>
    if s = "(" ∨ s = ")" ∨ s = "\x7b" ∨ s = "\x7d" then none
    else shellLoop rest (seg ++ [s]) first
  | .op o :: rest, seg, first =>
    if seg.isEmpty then
      if o ∈ SAFE_SHELL_OPERATORS then shellLoop rest [] first else none
    else
      match isSafeCommand seg with
      | none => none
      | some r =>
        if o ∈ SAFE_SHELL_OPERATORS then shellLoop rest [] (some (first.getD r))
        else none
  | .comment _ :: _, _, _ => none

/-- `isEntireShellExpressionSafe` of approvals.ts (the `try` never throws in
this model, so only the `parts.length === 0` guard precedes the loop). -/
def isEntireShellExpressionSafe (parts : List ParseEntry) :
    Option SafeCommandReason :=
  if parts.isEmpty then none else shellLoop parts [] none

/-- The command segments of a parsed shell expression: maximal runs of words
delimited by non-word entries, in order.  Always non-empty (the run currently
open at the end is included, possibly empty). -/
def segmentsOf : List ParseEntry → List (List String)
  | [] => [[]]
  | .str s :: rest => (s :: (segmentsOf rest).headD []) :: (segmentsOf rest).tail
  | .op _ :: rest => [] :: segmentsOf rest
  | .comment _ :: rest => [] :: segmentsOf rest

theorem segmentsOf_ne_nil (entries : List ParseEntry) : segmentsOf entries ≠ [] := by
  cases entries with
  | nil => simp [segmentsOf]
  | cons e rest => cases e <;> simp [segmentsOf]

/-- The segment list with a partially accumulated segment prepended onto the
first segment: the shape of `shellLoop`'s intermediate state. -/
def prepSegs (seg : List String) (entries : List ParseEntry) : List (List String) :=
  (seg ++ (segmentsOf entries).headD []) :: (segmentsOf entries).tail

theorem prepSegs_nil (entries : List ParseEntry) :
    prepSegs [] entries = segmentsOf entries := by
  obtain ⟨a, t, h⟩ : ∃ a t, segmentsOf entries = a :: t := by
    cases hh : segmentsOf entries with
    | nil => exact absurd hh (segmentsOf_ne_nil entries)
    | cons a t => exact ⟨a, t, rfl⟩
  simp [prepSegs, h]

/-- One entry is acceptable to the walker: a word other than the four grouping
tokens, or an operator in the safe set; unknown token types never are. -/
def entryOk : ParseEntry → Prop
  | .str s => ¬(s = "(" ∨ s = ")" ∨ s = "\x7b" ∨ s = "\x7d")
  | .op o => o ∈ SAFE_SHELL_OPERATORS
  | .comment _ => False

instance (e : ParseEntry) : Decidable (entryOk e) :=
  match e with
  | .str s => inferInstanceAs (Decidable ¬(s = "(" ∨ s = ")" ∨ s = "\x7b" ∨ s = "\x7d"))
  | .op o => inferInstanceAs (Decidable (o ∈ SAFE_SHELL_OPERATORS))
  | .comment _ => inferInstanceAs (Decidable False)

/-- Characterization of the walker, generalized over its accumulator: the walk
succeeds iff every entry is acceptable, every (completed-or-pending) non-empty
segment passes `isSafeCommand`, and a reason exists to return — either one
carried in already or one produced by some non-empty segment. -/
theorem shellLoop_isSome_iff (entries : List ParseEntry) :
    ∀ (seg : List String) (first : Option SafeCommandReason),
      (shellLoop entries seg first).isSome = true ↔
        ((∀ e ∈ entries, entryOk e) ∧
          (∀ sg ∈ prepSegs seg entries, sg ≠ [] → (isSafeCommand sg).isSome = true) ∧
          (first.isSome = true ∨ ∃ sg ∈ prepSegs seg entries, sg ≠ [])) := by
  induction entries with
  | nil =>
    intro seg first
    by_cases hseg : seg = []
    · subst hseg
      simp [shellLoop, prepSegs, segmentsOf]
    · cases hsafe : isSafeCommand seg with
      | none =>
        simp [shellLoop, prepSegs, segmentsOf, hseg, hsafe]
      | some r =>
        simp [shellLoop, prepSegs, segmentsOf, hseg, hsafe]
  | cons e rest ih =>
    cases e with
    | str s =>
      intro seg first
      by_cases hs : s = "(" ∨ s = ")" ∨ s = "\x7b" ∨ s = "\x7d"
      · have hstep : shellLoop (.str s :: rest) seg first = none := by
          simp [shellLoop, hs]
        rw [hstep]
        have hnot : ¬ ∀ e ∈ ParseEntry.str s :: rest, entryOk e := by
          intro h
          exact (h (.str s) (by simp)) hs
        simp only [Option.isSome_none, Bool.false_eq_true, false_iff]
        tauto
      · have hstep : shellLoop (.str s :: rest) seg first =
            shellLoop rest (seg ++ [s]) first := by
          simp [shellLoop, hs]
        have hsegs : prepSegs seg (.str s :: rest) = prepSegs (seg ++ [s]) rest := by
          simp [prepSegs, segmentsOf]
        rw [hstep, ih (seg ++ [s]) first, hsegs]
        constructor
        · rintro ⟨h1, h2, h3⟩
          refine ⟨?_, h2, h3⟩
          intro e he
          rcases List.mem_cons.mp he with h | h
          · subst h
            exact hs
          · exact h1 e h
        · rintro ⟨h1, h2, h3⟩
          exact ⟨fun e he => h1 e (List.mem_cons_of_mem _ he), h2, h3⟩
    | op o =>
      intro seg first
      have hsegs : prepSegs seg (.op o :: rest) = seg :: segmentsOf rest := by
        simp [prepSegs, segmentsOf]
      by_cases hseg : seg = []
      · subst hseg
        by_cases ho : o ∈ SAFE_SHELL_OPERATORS
        · have hstep : shellLoop (.op o :: rest) [] first = shellLoop rest [] first := by
            simp [shellLoop, ho]
          rw [hstep, ih [] first, prepSegs_nil, hsegs]
          simp [entryOk, ho]
        · have hstep : shellLoop (.op o :: rest) [] first = none := by
            simp [shellLoop, ho]
          rw [hstep]
          simp [entryOk, ho]
      · cases hsafe : isSafeCommand seg with
        | none =>
          have hstep : shellLoop (.op o :: rest) seg first = none := by
            simp [shellLoop, hseg, hsafe]
          rw [hstep, hsegs]
          have : ¬ (∀ sg ∈ seg :: segmentsOf rest, sg ≠ [] →
              (isSafeCommand sg).isSome = true) := by
            intro h
            have := h seg (by simp) hseg
            rw [hsafe] at this
            simp at this
          simp only [Option.isSome_none, Bool.false_eq_true, false_iff]
          tauto
        | some r =>
          by_cases ho : o ∈ SAFE_SHELL_OPERATORS
          · have hstep : shellLoop (.op o :: rest) seg first =
                shellLoop rest [] (some (first.getD r)) := by
              simp [shellLoop, hseg, hsafe, ho]
            rw [hstep, ih [] (some (first.getD r)), prepSegs_nil, hsegs]
            constructor
            · rintro ⟨h1, h2, -⟩
              refine ⟨?_, ?_, Or.inr ⟨seg, by simp, hseg⟩⟩
              · intro x hx
                rcases List.mem_cons.mp hx with h | h
                · subst h; exact ho
                · exact h1 x h
              · intro sg hsg
                rcases List.mem_cons.mp hsg with h | h
                · subst h; intro _; rw [hsafe]; rfl
                · exact h2 sg h
            · rintro ⟨h1, h2, -⟩
              refine ⟨?_, ?_, Or.inl rfl⟩
              · intro x hx; exact h1 x (List.mem_cons_of_mem _ hx)
              · intro sg hsg; exact h2 sg (List.mem_cons_of_mem _ hsg)
          · have hstep : shellLoop (.op o :: rest) seg first = none := by
              simp [shellLoop, hseg, hsafe, ho]
            rw [hstep]
            have : ¬ ∀ e ∈ ParseEntry.op o :: rest, entryOk e := by
              intro h
              exact ho (h (.op o) (by simp))
            simp only [Option.isSome_none, Bool.false_eq_true, false_iff]
            tauto
    | comment c =>
      intro seg first
      have hstep : shellLoop (.comment c :: rest) seg first = none := rfl
      rw [hstep]
      have : ¬ ∀ e ∈ ParseEntry.comment c :: rest, entryOk e := by
        intro h
        exact (h (.comment c) (by simp))
      simp only [Option.isSome_none, Bool.false_eq_true, false_iff]
      tauto

/-- The exact condition under which the walker accepts a parsed expression. -/
def codeSafeEntries (entries : List ParseEntry) : Prop :=
  entries ≠ [] ∧
  (∀ e ∈ entries, entryOk e) ∧
  (∀ sg ∈ segmentsOf entries, sg ≠ [] → (isSafeCommand sg).isSome = true) ∧
  (∃ sg ∈ segmentsOf entries, sg ≠ [])

instance (entries : List ParseEntry) : Decidable (codeSafeEntries entries) := by
  unfold codeSafeEntries
  infer_instance

theorem isEntireShellExpressionSafe_isSome_iff (entries : List ParseEntry) :
    (isEntireShellExpressionSafe entries).isSome = true ↔ codeSafeEntries entries := by
  by_cases h : entries = []
  · subst h
    simp [isEntireShellExpressionSafe, codeSafeEntries]
  · have hne : entries.isEmpty = false := by
      simpa [List.isEmpty_iff] using h
    rw [isEntireShellExpressionSafe, if_neg (by simp [hne]),
      shellLoop_isSome_iff entries [] none, prepSegs_nil]
    unfold codeSafeEntries
    simp only [Option.isSome_none, Bool.false_eq_true, false_or]
    tauto

/-! ## POSIX path model (Node's `path.resolve` / `path.relative` /
`path.isAbsolute` for absolute inputs, as used by approvals.ts) -/

/-- Node `path.isAbsolute` (posix): the path starts with `/`. -/
def posixIsAbsolute (p : String) : Bool := p.startsWith "/"

/-- Normalize a split path: drop empty and `.` segments, let `..` pop the
previous segment (and vanish at the root, as it does for absolute paths). -/
def normalizeSegments (segs : List String) : List String :=
  segs.foldl
    (fun acc seg =>
      if seg = "" ∨ seg = "." then acc
      else if seg = ".." then acc.dropLast
      else acc ++ [seg])
    []

def absoluteSegments (p : String) : List String := normalizeSegments (p.splitOn "/")

/-- Node `path.resolve` (posix) with a single argument, parameterized by the
process working directory `cwd` (assumed absolute): an absolute candidate is
normalized, a relative one is resolved against `cwd` first. -/
def posixResolve (cwd p : String) : String :=
  if posixIsAbsolute p then "/" ++ String.intercalate "/" (absoluteSegments p)
  else "/" ++ String.intercalate "/" (absoluteSegments (cwd ++ "/" ++ p))

def commonPrefixLen : List String → List String → Nat
  | a :: as, b :: bs => if a = b then 1 + commonPrefixLen as bs else 0
  | _, _ => 0

/-- Node `path.relative` (posix) for absolute `fromPath` / `toPath`: strip the
common segment prefix, then one `..` per remaining `fromPath` segment followed
by the remaining `toPath` segments. -/
def posixRelative (fromPath toPath : String) : String :=
  let fs := absoluteSegments fromPath
  let ts := absoluteSegments toPath
  let k := commonPrefixLen fs ts
  String.intercalate "/" (List.replicate (fs.length - k) ".." ++ ts.drop k)

/-- `pathContains` of approvals.ts:
`!!relative && !relative.startsWith("..") && !path.isAbsolute(relative)`. -/
def pathContains (parent child : String) : Bool :=
  let relative := posixRelative parent child
  (!(relative == "")) && (!(relative.startsWith "..")) && (!(posixIsAbsolute relative))

/-! ## Patch path containment (`canAutoApproveApplyPatch`) -/

/-- Modelled from the spec: `identify_files_needed` of the patch engine (the
`apply-patch` module is not among the provided source files; approvals.ts only
imports it).  Spec §4.2: "`identify_files_needed(patch) → [path]`: returns
paths of Update and Delete operations", which the envelope introduces with
`*** Update File: <path>` and `*** Delete File: <path>` lines. -/
def identify_files_needed (patch : String) : List String :=
  (patch.splitOn "\n").filterMap fun line =>
    if line.startsWith "*** Update File: " then some (line.drop 17)
    else if line.startsWith "*** Delete File: " then some (line.drop 17)
    else none

/-- Modelled from the spec: `identify_files_added` of the patch engine —
"returns paths of Add operations", introduced by `*** Add File: <path>`. -/
def identify_files_added (patch : String) : List String :=
  (patch.splitOn "\n").filterMap fun line =>
    if line.startsWith "*** Add File: " then some (line.drop 14)
    else none

/-- `isPathConstrainedTowritablePaths` of approvals.ts: resolve the candidate
against the working directory, then check some writable root contains it. -/
def isPathConstrainedTowritablePaths (candidatePath : String)
    (writableRoots : List String) (cwd : String) : Bool :=
  writableRoots.any fun writablePath =>
    pathContains writablePath (posixResolve cwd candidatePath)

/-- `allPathsConstrainedTowritablePaths` of approvals.ts. -/
def allPathsConstrainedTowritablePaths (candidatePaths writableRoots : List String)
    (cwd : String) : Bool :=
  candidatePaths.all fun p => isPathConstrainedTowritablePaths p writableRoots cwd

/-- `isWritePatchConstrainedToWritablePaths` of approvals.ts. -/
def isWritePatchConstrainedToWritablePaths (applyPatchArg : String)
    (writableRoots : List String) (cwd : String) : Bool :=
  allPathsConstrainedTowritablePaths (identify_files_needed applyPatchArg)
      writableRoots cwd &&
    allPathsConstrainedTowritablePaths (identify_files_added applyPatchArg)
      writableRoots cwd

/-- `canAutoApproveApplyPatch` of approvals.ts: `suggest` always asks the
user; otherwise auto-approve unsandboxed when the patch is constrained to the
writable roots, and fall back to sandboxed auto-approve (`full-auto`) or
ask-user (`auto-edit`). -/
def canAutoApproveApplyPatch (applyPatchArg : String) (writableRoots : List String)
    (cwd : String) (policy : ApprovalPolicy) : SafetyAssessment :=
  match policy with
  | .suggest => .askUser (some applyPatchArg)
  | _ =>
    if isWritePatchConstrainedToWritablePaths applyPatchArg writableRoots cwd then
      .autoApprove false "apply_patch command is constrained to writable paths"
        "Editing" (some applyPatchArg)
    else
      match policy with
      | .fullAuto => .autoApprove true "Full auto mode" "Editing" (some applyPatchArg)
      | _ => .askUser (some applyPatchArg)

/-! ## `tryParseApplyPatch` (heredoc recognition) -/

/-- JavaScript `\s` for the strings at hand (ASCII whitespace). -/
def isJsSpace (c : Char) : Bool :=
  c = ' ' ∨ c = '\t' ∨ c = '\n' ∨ c = '\r' ∨ c = '\x0b' ∨ c = '\x0c'

/-- JavaScript `\w`: `[A-Za-z0-9_]`. -/
def isJsWordChar (c : Char) : Bool := c.isAlphanum || c = '_'

def jsTrimChars (cs : List Char) : List Char :=
  ((cs.dropWhile isJsSpace).reverse.dropWhile isJsSpace).reverse

/-- JavaScript `String.prototype.trim` (over the ASCII whitespace set). -/
def jsTrim (s : String) : String := String.mk (jsTrimChars s.data)

/-- The lazy body group `([\s\S]*?)` of the heredoc regex: the shortest prefix
whose remainder starts with a newline followed by the delimiter. -/
def heredocBody (delim : List Char) : List Char → Option (List Char)
  | [] => none
  | c :: rest =>
    if c = '\n' ∧ delim.isPrefixOf rest then some []
    else (heredocBody delim rest).map fun body => c :: body

/-- The regex `/^\s*<<\s*['"]?(\w+)['"]?\n([\s\S]*?)\n\1/` of
`tryParseApplyPatch`, unfolded into a deterministic scan (the only regex
backtracking that could occur — shortening `\w+` or dropping an optional
quote — always fails, because word characters are neither quotes nor
newlines). Returns group 2, the heredoc body. -/
def heredocMatch (cs : List Char) : Option (List Char) :=
  match cs.dropWhile isJsSpace with
  | '<' :: '<' :: rest1 =>
    let rest2 := rest1.dropWhile isJsSpace
    let rest3 := match rest2 with
      | c :: r => if c = '\'' ∨ c = '"' then r else rest2
      | [] => rest2
    let w := rest3.takeWhile isJsWordChar
    if w.isEmpty then none
    else
      match rest3.drop w.length with
      | '\'' :: '\n' :: r => heredocBody w r
      | '"' :: '\n' :: r => heredocBody w r
      | '\n' :: r => heredocBody w r
      | _ => none
  | _ => none

/-- `tryParseApplyPatch` of approvals.ts: recognize a `bash -lc` script of the
form `apply_patch <<EOF ... EOF` (or a bare `apply_patch ...`) and return the
patch blob with the heredoc envelope removed and trimmed.
`bashArg.startsWith(prefix)` and `bashArg.slice(prefix.length)` are taken at
the character level (the prefix is ASCII, so this coincides with the
JavaScript string operations). -/
def tryParseApplyPatch (bashArg : String) : Option String :=
  if "apply_patch".data.isPrefixOf bashArg.data then
    let heredoc := bashArg.data.drop "apply_patch".data.length
    match heredocMatch heredoc with
    | some body => some (jsTrim (String.mk body))
    | none => some (jsTrim (String.mk heredoc))
  else none

/-! ## `canAutoApprove` -/

/-- `canAutoApprove` of approvals.ts.  `parseResult` stands for the outcome of
the external `shell-quote` `parse(command[2], env)` call: `none` models a
parser throw, `some entries` a successful parse.  `cwd` parameterizes
`process.cwd()` used by `path.resolve`.  The TypeScript guards
`command.length === 2 && typeof command[1] === "string"` and
`command[0] === "bash" && command[1] === "-lc" && typeof command[2] ===
"string" && command.length === 3` collapse to length checks over a list of
strings. -/
def canAutoApprove (command : List String) (policy : ApprovalPolicy)
    (writableRoots : List String) (cwd : String)
    (parseResult : Option (List ParseEntry)) : SafetyAssessment :=
  if command[0]? = some "apply_patch" then
    if command.length = 2 then
      canAutoApproveApplyPatch ((command[1]?).getD "") writableRoots cwd policy
    else
      .reject "Invalid apply_patch command"
  else
    match isSafeCommand command with
    | some sc => .autoApprove false sc.reason sc.group none
    | none =>
      if command[0]? = some "bash" ∧ command[1]? = some "-lc" ∧ command.length = 3 then
        match tryParseApplyPatch ((command[2]?).getD "") with
        | some applyPatchArg =>
          canAutoApproveApplyPatch applyPatchArg writableRoots cwd policy
        | none =>
          match parseResult with
          | none =>
            match policy with
            | .fullAuto => .autoApprove true "Full auto mode" "Running commands" none
            | _ => .askUser none
          | some bashCmd =>
            match isEntireShellExpressionSafe bashCmd with
            | some sc => .autoApprove false sc.reason sc.group none
            | none =>
              match policy with
              | .fullAuto => .autoApprove true "Full auto mode" "Running commands" none
              | _ => .askUser none
      else
        match policy with
        | .fullAuto => .autoApprove true "Full auto mode" "Running commands" none
        | _ => .askUser none

/-! ## Theorems about the classifier -/

/-- The spec's notion of path containment, in its own words: the root-relative
path is non-empty, does not begin with `..`, and is not absolute. -/
def specWithin (root candidate : String) : Prop :=
  posixRelative root candidate ≠ "" ∧
  (posixRelative root candidate).startsWith ".." = false ∧
  posixIsAbsolute (posixRelative root candidate) = false

theorem pathContains_iff_specWithin (root c : String) :
    pathContains root c = true ↔ specWithin root c := by
  unfold pathContains specWithin
  simp only [Bool.and_eq_true, Bool.not_eq_true', beq_eq_false_iff_ne, ne_eq]
  rw [and_assoc]

/-- Every path the patch needs or adds, resolved to an absolute path, lies
within some writable root. -/
def patchPathsContained (patch : String) (roots : List String) (cwd : String) : Prop :=
  ∀ p ∈ identify_files_needed patch ++ identify_files_added patch,
    ∃ root ∈ roots, specWithin root (posixResolve cwd p)

theorem isWritePatchConstrained_iff (patch : String) (roots : List String)
    (cwd : String) :
    isWritePatchConstrainedToWritablePaths patch roots cwd = true ↔
      patchPathsContained patch roots cwd := by
  simp only [isWritePatchConstrainedToWritablePaths,
    allPathsConstrainedTowritablePaths, isPathConstrainedTowritablePaths,
    patchPathsContained, Bool.and_eq_true, List.all_eq_true, List.any_eq_true,
    List.mem_append, or_imp, forall_and, pathContains_iff_specWithin]

/-- C3: the apply_patch policy switch of `canAutoApproveApplyPatch`.  Under
`suggest` the classifier always asks the user; under `auto-edit` and
`full-auto` it auto-approves without sandbox exactly when every needed and
added path, resolved to an absolute path, is within some writable root (in the
spec's sense of `specWithin`); a non-contained patch auto-approves with
sandbox under `full-auto` and asks the user under `auto-edit`. -/
theorem c3_apply_patch_policy (patch : String) (roots : List String) (cwd : String) :
    (canAutoApproveApplyPatch patch roots cwd .suggest = .askUser (some patch)) ∧
    ((∃ r g, canAutoApproveApplyPatch patch roots cwd .autoEdit =
        .autoApprove false r g (some patch)) ↔ patchPathsContained patch roots cwd) ∧
    ((∃ r g, canAutoApproveApplyPatch patch roots cwd .fullAuto =
        .autoApprove false r g (some patch)) ↔ patchPathsContained patch roots cwd) ∧
    (¬ patchPathsContained patch roots cwd →
      canAutoApproveApplyPatch patch roots cwd .autoEdit = .askUser (some patch)) ∧
    (¬ patchPathsContained patch roots cwd →
      canAutoApproveApplyPatch patch roots cwd .fullAuto =
        .autoApprove true "Full auto mode" "Editing" (some patch)) := by
  have hiff := isWritePatchConstrained_iff patch roots cwd
  by_cases hc : isWritePatchConstrainedToWritablePaths patch roots cwd = true
  · have hcc : patchPathsContained patch roots cwd := hiff.mp hc
    refine ⟨rfl, ?_, ?_, ?_, ?_⟩ <;>
      simp [canAutoApproveApplyPatch, hc, hcc]
  · have hcc : ¬ patchPathsContained patch roots cwd := fun h => hc (hiff.mpr h)
    refine ⟨rfl, ?_, ?_, ?_, ?_⟩ <;>
      simp [canAutoApproveApplyPatch, hc, hcc]

theorem canAutoApproveApplyPatch_ne_reject (a : String) (roots : List String)
    (cwd : String) (p : ApprovalPolicy) (r : String) :
    canAutoApproveApplyPatch a roots cwd p ≠ .reject r := by
  cases p
  · simp [canAutoApproveApplyPatch]
  · simp only [canAutoApproveApplyPatch]
    split <;> simp
  · simp only [canAutoApproveApplyPatch]
    split <;> simp

theorem canAutoApprove_ne_reject_of_not_apply_patch (command : List String)
    (policy : ApprovalPolicy) (roots : List String) (cwd : String)
    (parseResult : Option (List ParseEntry))
    (h0 : ¬ command[0]? = some "apply_patch") (r : String) :
    canAutoApprove command policy roots cwd parseResult ≠ .reject r := by
  unfold canAutoApprove
  rw [if_neg h0]
  cases hsafe : isSafeCommand command with
  | some sc => simp
  | none =>
    by_cases hbash : command[0]? = some "bash" ∧ command[1]? = some "-lc" ∧
        command.length = 3
    · rw [if_pos hbash]
      cases htp : tryParseApplyPatch ((command[2]?).getD "") with
      | some a => exact canAutoApproveApplyPatch_ne_reject _ _ _ _ _
      | none =>
        cases parseResult with
        | none => cases policy <;> simp
        | some entries =>
          cases hshell : isEntireShellExpressionSafe entries with
          | some sc => simp [hshell]
          | none => cases policy <;> simp [hshell]
    · rw [if_neg hbash]
      cases policy <;> simp

/-- C9: `canAutoApprove` rejects exactly the malformed `apply_patch`
invocations — `argv[0] = "apply_patch"` with an argument list that is not a
two-element array — and, whatever the policy, writable roots, working
directory and shell-parse outcome, every other argv gets auto-approve or
ask-user, never reject. -/
theorem c9_reject_iff (command : List String) (policy : ApprovalPolicy)
    (roots : List String) (cwd : String)
    (parseResult : Option (List ParseEntry)) :
    (∃ r, canAutoApprove command policy roots cwd parseResult = .reject r) ↔
      (command[0]? = some "apply_patch" ∧ command.length ≠ 2) := by
  by_cases h0 : command[0]? = some "apply_patch"
  · by_cases h2 : command.length = 2
    · constructor
      · rintro ⟨r, hr⟩
        unfold canAutoApprove at hr
        rw [if_pos h0, if_pos h2] at hr
        exact absurd hr (canAutoApproveApplyPatch_ne_reject _ _ _ _ _)
      · rintro ⟨-, hne⟩
        exact absurd h2 hne
    · constructor
      · intro
        exact ⟨h0, h2⟩
      · intro
        refine ⟨"Invalid apply_patch command", ?_⟩
        unfold canAutoApprove
        rw [if_pos h0, if_neg h2]
  · constructor
    · rintro ⟨r, hr⟩
      exact absurd hr
        (canAutoApprove_ne_reject_of_not_apply_patch command policy roots cwd
          parseResult h0 r)
    · rintro ⟨ha, -⟩
      exact absurd ha h0

theorem isSafeCommand_bash_lc (script : String) :
    isSafeCommand ["bash", "-lc", script] = none := rfl

/-- For a `bash -lc` script that is not an apply_patch invocation, the
classifier is decided by the shell-expression walk over the parse result,
falling back to the policy default. -/
theorem canAutoApprove_bash_script (script : String) (policy : ApprovalPolicy)
    (roots : List String) (cwd : String)
    (parseResult : Option (List ParseEntry))
    (hap : tryParseApplyPatch script = none) :
    canAutoApprove ["bash", "-lc", script] policy roots cwd parseResult =
      match parseResult with
      | none =>
        match policy with
        | .fullAuto => .autoApprove true "Full auto mode" "Running commands" none
        | _ => .askUser none
      | some entries =>
        match isEntireShellExpressionSafe entries with
        | some sc => .autoApprove false sc.reason sc.group none
        | none =>
          match policy with
          | .fullAuto => .autoApprove true "Full auto mode" "Running commands" none
          | _ => .askUser none := by
  unfold canAutoApprove
  rw [if_neg (by simp), isSafeCommand_bash_lc]
  have hcond : (["bash", "-lc", script][0]? = some "bash" ∧
      ["bash", "-lc", script][1]? = some "-lc" ∧
      (["bash", "-lc", script] : List String).length = 3) := by
    refine ⟨rfl, rfl, rfl⟩
  rw [if_pos hcond]
  have harg : ((["bash", "-lc", script][2]?).getD "") = script := rfl
  rw [harg, hap]

theorem canAutoApprove_bash_parsed (script : String) (policy : ApprovalPolicy)
    (roots : List String) (cwd : String) (entries : List ParseEntry)
    (hap : tryParseApplyPatch script = none) :
    canAutoApprove ["bash", "-lc", script] policy roots cwd (some entries) =
      match isEntireShellExpressionSafe entries with
      | some sc => .autoApprove false sc.reason sc.group none
      | none =>
        match policy with
        | .fullAuto => .autoApprove true "Full auto mode" "Running commands" none
        | _ => .askUser none := by
  rw [canAutoApprove_bash_script script policy roots cwd (some entries) hap]

/-- The claim's own condition for a parsed `bash -lc` script to be a safe
composition, written from the spec's words: every command segment is on the
read-only allowlist, and every operator between segments is one of the four
safe shell operators. -/
def claimOperatorOk : ParseEntry → Prop
  | .op o => o ∈ SAFE_SHELL_OPERATORS
  | _ => True

instance (e : ParseEntry) : Decidable (claimOperatorOk e) :=
  match e with
  | .op o => inferInstanceAs (Decidable (o ∈ SAFE_SHELL_OPERATORS))
  | .str _ => inferInstanceAs (Decidable True)
  | .comment _ => inferInstanceAs (Decidable True)

def claimSafeComposition (entries : List ParseEntry) : Prop :=
  (∀ sg ∈ segmentsOf entries, sg ≠ [] → (isSafeCommand sg).isSome = true) ∧
  (∀ e ∈ entries, claimOperatorOk e)

instance (entries : List ParseEntry) : Decidable (claimSafeComposition entries) := by
  unfold claimSafeComposition
  infer_instance

/-- C2, counterexample: the script `ls \x7b` (word `ls` then word `\x7b`,
which `shell-quote` tokenizes as two plain words and which starts no
apply_patch heredoc) satisfies the claim's stated condition — its single
command segment `["ls", "\x7b"]` is on the read-only allowlist (the `ls` rule
ignores arguments) and it contains no operators at all — yet the classifier
returns ask-user, not an unsandboxed auto-approve, because the walker
explicitly refuses the grouping token `\x7b`.  Hence the claim's "if and only
if" is false as stated. -/
theorem c2_counterexample_brace_word :
    claimSafeComposition [ParseEntry.str "ls", ParseEntry.str "\x7b"] ∧
    tryParseApplyPatch "ls \x7b" = none ∧
    canAutoApprove ["bash", "-lc", "ls \x7b"] .suggest [] "/"
        (some [ParseEntry.str "ls", ParseEntry.str "\x7b"]) =
      .askUser none := by
  refine ⟨by decide, by decide, by decide⟩

/-- C2, amended: for `argv = ["bash", "-lc", script]` with `script` not an
apply_patch invocation and a successful parse, the classifier returns
auto-approve with run-in-sandbox = false — under every policy and writable
root list — if and only if the parse result is non-empty, every entry is a
plain word or a safe operator (`&&`, `||`, `|`, `;`), no word is one of the
grouping tokens `(`, `)`, `\x7b`, `\x7d`, every non-empty command segment is
on the read-only allowlist, and at least one non-empty command segment
exists.  In particular a script containing a redirection operator or a
grouping token never yields an unsandboxed auto-approve. -/
theorem c2_amended_shell_safety (script : String) (policy : ApprovalPolicy)
    (roots : List String) (cwd : String) (entries : List ParseEntry)
    (hap : tryParseApplyPatch script = none) :
    (∃ r g, canAutoApprove ["bash", "-lc", script] policy roots cwd
        (some entries) = .autoApprove false r g none) ↔
      codeSafeEntries entries := by
  rw [canAutoApprove_bash_parsed script policy roots cwd entries hap,
    ← isEntireShellExpressionSafe_isSome_iff]
  cases hshell : isEntireShellExpressionSafe entries with
  | some sc => simp
  | none => cases policy <;> simp

/-- C2, witness: the safe composition `ls -la | grep foo` is auto-approved
without sandbox under the strictest policy. -/
theorem c2_amended_shell_safety_witness :
    ∃ r g, canAutoApprove ["bash", "-lc", "ls -la | grep foo"] .suggest [] "/"
        (some [ParseEntry.str "ls", ParseEntry.str "-la", ParseEntry.op "|",
          ParseEntry.str "grep", ParseEntry.str "foo"]) =
      SafetyAssessment.autoApprove false r g none :=
  (c2_amended_shell_safety "ls -la | grep foo" .suggest [] "/"
      [ParseEntry.str "ls", ParseEntry.str "-la", ParseEntry.op "|",
        ParseEntry.str "grep", ParseEntry.str "foo"] (by decide)).mpr (by decide)

/-! ## Sandbox executor (`raw-exec.ts`) -/

/-- `ExecResult` of sandbox/interface.ts. -/
structure ExecResult where
  stdout : String
  stderr : String
  exitCode : Int
deriving DecidableEq, Repr

/-- `MAX_BUFFER` of raw-exec.ts: 100 KiB. -/
def MAX_BUFFER : Nat := 1024 * 100

/-- The per-stream capture state of `exec`: the retained chunks, the running
byte count (`numStdoutBytes` / `numStderrBytes`) and the overflow flag
(`hitMaxStdout` / `hitMaxStderr`).  Chunk bytes are modelled as naturals. -/
structure CaptureState where
  chunks : List (List Nat)
  numBytes : Nat
  hitMax : Bool
deriving DecidableEq, Repr

/-- One `data` event handler of raw-exec.ts: once the flag is set the chunk is
discarded outright; otherwise the byte count grows and the chunk is retained
only while the cumulative count stays within `MAX_BUFFER`, the first
overflowing chunk setting the flag (and itself being discarded). -/
def onData (s : CaptureState) (data : List Nat) : CaptureState :=
  if s.hitMax then s
  else
    let numBytes := s.numBytes + data.length
    if numBytes ≤ MAX_BUFFER then
      { s with chunks := s.chunks ++ [data], numBytes := numBytes }
    else
      { s with numBytes := numBytes, hitMax := true }

/-- The whole life of one captured stream: every `data` event folded through
`onData` from the empty initial state. -/
def captureStream (datas : List (List Nat)) : CaptureState :=
  datas.foldl onData ⟨[], 0, false⟩

/-- The bytes `Buffer.concat(...)` delivers for one stream. -/
def deliveredBytes (datas : List (List Nat)) : List Nat :=
  (captureStream datas).chunks.flatten

/-- The capture invariant: the retained bytes never exceed the cap, and while
the stream has not overflowed the byte counter equals the retained size. -/
def captureInv (s : CaptureState) : Prop :=
  s.chunks.flatten.length ≤ MAX_BUFFER ∧
  (s.hitMax = false → s.chunks.flatten.length = s.numBytes)

theorem onData_preserves_inv (s : CaptureState) (data : List Nat)
    (h : captureInv s) : captureInv (onData s data) := by
  obtain ⟨h1, h2⟩ := h
  unfold onData
  by_cases hm : s.hitMax
  · simpa [hm] using ⟨h1, h2⟩
  · simp only [hm, if_false, Bool.false_eq_true]
    by_cases hle : s.numBytes + data.length ≤ MAX_BUFFER
    · constructor
      · simp only [if_pos hle]
        simp [List.flatten_append, h2 (by simpa using hm), hle]
      · intro _
        simp [if_pos hle, List.flatten_append, h2 (by simpa using hm)]
    · constructor
      · simp only [if_neg hle]
        exact h1
      · simp [if_neg hle]

theorem foldl_onData_preserves_inv (datas : List (List Nat)) :
    ∀ s : CaptureState, captureInv s → captureInv (datas.foldl onData s) := by
  induction datas with
  | nil => intro s h; simpa using h
  | cons d rest ih =>
    intro s h
    exact ih (onData s d) (onData_preserves_inv s d h)

/-- C8: both delivered streams of every execution are built from at most
100 KiB (102400 bytes) of captured data; the executor accumulates chunks only
while the cumulative byte count stays within the cap (while un-overflowed the
counter equals the retained size); and once a stream's cap has been exceeded
every subsequent chunk for that stream is discarded while the stream stays
open (`onData` is the identity once `hitMax` is set). -/
theorem c8_bounded_capture :
    (∀ stdoutDatas stderrDatas : List (List Nat),
      (deliveredBytes stdoutDatas).length ≤ MAX_BUFFER ∧
      (deliveredBytes stderrDatas).length ≤ MAX_BUFFER) ∧
    (∀ datas : List (List Nat), (captureStream datas).hitMax = false →
      (deliveredBytes datas).length = (captureStream datas).numBytes) ∧
    (∀ (s : CaptureState) (data : List Nat), s.hitMax = true → onData s data = s) := by
  have key : ∀ datas : List (List Nat), captureInv (captureStream datas) := by
    intro datas
    exact foldl_onData_preserves_inv datas ⟨[], 0, false⟩ (by constructor <;> simp [MAX_BUFFER])
  refine ⟨?_, ?_, ?_⟩
  · intro outDatas errDatas
    exact ⟨(key outDatas).1, (key errDatas).1⟩
  · intro datas h
    exact (key datas).2 h
  · intro s data h
    simp [onData, h]

/-- The child termination observed by `exec`'s promise: either the `exit`
event with its `(code, signal)` pair, or the `error` event (spawn failure)
with the stringified error. -/
inductive ChildTermination where
  | exited (code : Option Int) (signal : Option String)
  | errored (err : String)
deriving DecidableEq, Repr

/-- The `(code, signal)` to exit-code mapping of `child.on("exit")` in
raw-exec.ts: the child's exit code when present, else 128 plus the signal
number when the signal is listed in `os.constants.signals` (passed in as
`signals`), else 1. -/
def exitCodeFor (signals : String → Option Nat) (code : Option Int)
    (signal : Option String) : Int :=
  match code with
  | some c => c
  | none =>
    match signal with
    | some sg =>
      match signals sg with
      | some n => 128 + (n : Int)
      | none => 1
    | none => 1

/-- The resolved `ExecResult` of `exec` in raw-exec.ts, per child outcome.
`adaptedCommand` is the platform-adapted argv: when its first element is
missing, `exec` resolves early with a diagnostic (the `typeof prog !==
"string"` guard); a spawn `error` event resolves with empty stdout, the error
text on stderr and exit code 1; a normal exit carries the captured (bounded)
stdout/stderr and the mapped exit code.  Total by construction: the promise is
never rejected. -/
def execResolution (adaptedCommand : List String)
    (signals : String → Option Nat) (stdout stderr : String)
    (term : ChildTermination) : ExecResult :=
  match adaptedCommand[0]? with
  | none => { stdout := "", stderr := "command[0] is not a string", exitCode := 1 }
  | some _ =>
    match term with
    | .errored err => { stdout := "", stderr := err, exitCode := 1 }
    | .exited code signal =>
      { stdout := stdout, stderr := stderr,
        exitCode := exitCodeFor signals code signal }

/-- C7: `exec` never rejects — `execResolution` is a total function of the
observed child outcome — and the delivered exit codes are: 1 with the
diagnostic on stderr for a spawn failure; the child's exit code when present;
128 plus the signal number for a known terminating signal; and 1 otherwise
(unknown signal, or neither code nor signal). -/
theorem c7_exec_resolution (prog : String) (rest : List String)
    (signals : String → Option Nat) (stdout stderr : String) :
    (∀ msg : String,
      execResolution (prog :: rest) signals stdout stderr (.errored msg) =
        { stdout := "", stderr := msg, exitCode := 1 }) ∧
    (∀ (c : Int) (sg : Option String),
      (execResolution (prog :: rest) signals stdout stderr
          (.exited (some c) sg)).exitCode = c) ∧
    (∀ (sg : String) (n : Nat), signals sg = some n →
      (execResolution (prog :: rest) signals stdout stderr
          (.exited none (some sg))).exitCode = 128 + n) ∧
    (∀ sg : String, signals sg = none →
      (execResolution (prog :: rest) signals stdout stderr
          (.exited none (some sg))).exitCode = 1) ∧
    ((execResolution (prog :: rest) signals stdout stderr
        (.exited none none)).exitCode = 1) ∧
    (∀ term : ChildTermination,
      execResolution [] signals stdout stderr term =
        { stdout := "", stderr := "command[0] is not a string", exitCode := 1 }) := by
  refine ⟨?_, ?_, ?_, ?_, ?_, ?_⟩
  · intro msg
    simp [execResolution]
  · intro c sg
    simp [execResolution, exitCodeFor]
  · intro sg n h
    simp [execResolution, exitCodeFor, h]
  · intro sg h
    simp [execResolution, exitCodeFor, h]
  · simp [execResolution, exitCodeFor]
  · intro term
    simp [execResolution]

/-! ## Agent loop (`agent-loop.ts`): tool-call handling -/

/-- The turn-input items `handleFunctionCall` produces (a fragment of
`ResponseInputItem`): a `function_call_output` with its `call_id` (which the
code can in principle leave undefined, hence `Option`) and `output` string,
or any other item shape, kept opaque. -/
inductive TurnItem where
  | functionCallOutput (callId : Option String) (output : String)
  | other (tag : String)
deriving DecidableEq, Repr

def TurnItem.isFunctionCallOutput : TurnItem → Bool
  | .functionCallOutput _ _ => true
  | _ => false

/-- The `function` sub-object of a chat-style tool-call item. -/
structure ChatFunction where
  name : Option String
  arguments : Option String
deriving DecidableEq, Repr

/-- The tool-call item `handleFunctionCall` receives, with the fields the code
reads defensively: `call_id` (responses endpoint), `id` (chat endpoint),
top-level `name` / `arguments`, and the chat-style nested `function`. -/
structure FunctionCallItem where
  call_id : Option String
  id : Option String
  name : Option String
  arguments : Option String
  function : Option ChatFunction
deriving DecidableEq, Repr

/-- `isChatStyle ? item.function?.name : item.name`. -/
def itemName (item : FunctionCallItem) : Option String :=
  match item.function with
  | some f => f.name
  | none => item.name

/-- `isChatStyle ? item.function?.arguments : item.arguments`. -/
def itemRawArguments (item : FunctionCallItem) : Option String :=
  match item.function with
  | some f => f.arguments
  | none => item.arguments

/-- `const callId = item.call_id ?? item.id`. -/
def itemCallId (item : FunctionCallItem) : Option String :=
  item.call_id.orElse fun _ => item.id

/-- The parsed tool-call arguments (`parseToolCallArguments`' success shape,
per the spec: argv plus optional working directory and timeout). -/
structure ExecInputArgs where
  cmd : List String
  workdir : Option String
  timeoutInMillis : Option Nat
deriving DecidableEq, Repr

/-- Models `JSON.stringify({ output: outputText, metadata })` of
agent-loop.ts line 458.  JSON string escaping of the payload is not modelled
character-for-character; no claim depends on this string's contents. -/
def stringifyExecOutput (outputText metadata : String) : String :=
  "\x7b\"output\":\"" ++ outputText ++ "\",\"metadata\":" ++ metadata ++ "\x7d"

/-- `handleFunctionCall` of agent-loop.ts.  `parsedArgs` stands for the result
of `parseToolCallArguments(rawArguments ?? "{}")` (`none` = malformed);
`execOutputText` / `execMetadata` / `execAdditionalItems` stand for the result
of `handleExecCommand` (a repository function outside the provided sources,
reached only for the shell tool names).  A canceled loop returns no items; a
parse failure returns a single `function_call_output` built from the raw
`item.call_id` field; otherwise the single `function_call_output` carries the
normalized call id and either the exec result (for `container.exec` / `shell`)
or `"no function found"`, followed by the exec path's additional items. -/
def handleFunctionCall (canceled : Bool) (item : FunctionCallItem)
    (parsedArgs : Option ExecInputArgs) (execOutputText execMetadata : String)
    (execAdditionalItems : List TurnItem) : List TurnItem :=
  if canceled then []
  else
    match parsedArgs with
    | none =>
      [TurnItem.functionCallOutput item.call_id
        ("invalid arguments: " ++ (itemRawArguments item).getD "undefined")]
    | some _ =>
      if itemName item = some "container.exec" ∨ itemName item = some "shell" then
        TurnItem.functionCallOutput (itemCallId item)
            (stringifyExecOutput execOutputText execMetadata) ::
          execAdditionalItems
      else
        [TurnItem.functionCallOutput (itemCallId item) "no function found"]

/-- The call id the returned output actually carries: the raw `call_id` field
on the invalid-arguments path, the normalized `call_id ?? id` otherwise. -/
def expectedCallId (item : FunctionCallItem)
    (parsedArgs : Option ExecInputArgs) : Option String :=
  match parsedArgs with
  | none => item.call_id
  | some _ => itemCallId item

/-- C1, counterexample: a chat-style call that carries only `id` (no
`call_id`) whose arguments fail to parse.  The exec path returns exactly one
`function_call_output`, but its `call_id` is the raw `item.call_id` —
undefined — not the call's call-id `"call_1"`: the returned list contains no
`function_call_output` with the call's call-id, refuting the claim. -/
theorem c1_counterexample_invalid_args_chat_id :
    (handleFunctionCall false
        { call_id := none, id := some "call_1", name := none,
          arguments := none,
          function := some { name := some "shell", arguments := some "oops" } }
        none "" "" []) =
      [TurnItem.functionCallOutput none "invalid arguments: oops"] ∧
    (handleFunctionCall false
        { call_id := none, id := some "call_1", name := none,
          arguments := none,
          function := some { name := some "shell", arguments := some "oops" } }
        none "" "" []).countP
      (fun it =>
        match it with
        | TurnItem.functionCallOutput c _ => c == some "call_1"
        | _ => false) = 0 := by
  constructor
  · rfl
  · rfl

/-- C1, amended: for every tool call processed by a non-canceled loop, and
with the exec path's additional synthetic items being non-`function_call_output`
items (as they are in the exec handler), the returned turn input contains
exactly one `function_call_output`, and it comes before all additional items;
its `call_id` is the call's normalized call-id (`call_id ?? id`) except on the
invalid-arguments path, where the raw `call_id` field is used (and may be
absent for chat-style calls). -/
theorem c1_amended_single_output_first (item : FunctionCallItem)
    (parsedArgs : Option ExecInputArgs) (execOutputText execMetadata : String)
    (extras : List TurnItem)
    (hex : ∀ it ∈ extras, it.isFunctionCallOutput = false) :
    ∃ out rest,
      handleFunctionCall false item parsedArgs execOutputText execMetadata extras =
        TurnItem.functionCallOutput (expectedCallId item parsedArgs) out :: rest ∧
      (TurnItem.functionCallOutput (expectedCallId item parsedArgs) out ::
          rest).countP (fun it => it.isFunctionCallOutput) = 1 := by
  have hcount : extras.countP (fun it => it.isFunctionCallOutput) = 0 :=
    List.countP_eq_zero.mpr (by simpa using hex)
  cases parsedArgs with
  | none =>
    refine ⟨"invalid arguments: " ++ (itemRawArguments item).getD "undefined",
      [], ?_, ?_⟩
    · simp [handleFunctionCall, expectedCallId]
    · simp [List.countP_cons, TurnItem.isFunctionCallOutput]
  | some args =>
    by_cases hname : itemName item = some "container.exec" ∨ itemName item = some "shell"
    · refine ⟨stringifyExecOutput execOutputText execMetadata, extras, ?_, ?_⟩
      · simp [handleFunctionCall, expectedCallId, hname]
      · simp only [List.countP_cons, TurnItem.isFunctionCallOutput, if_pos]
        have h0 : List.countP
            (fun it =>
              match it with
              | TurnItem.functionCallOutput _ _ => true
              | _ => false) extras = 0 := hcount
        omega
    · refine ⟨"no function found", [], ?_, ?_⟩
      · simp [handleFunctionCall, expectedCallId, hname]
      · simp [List.countP_cons, TurnItem.isFunctionCallOutput]

/-- C1, witness: a concrete shell call with one synthetic message item
appended by the exec path. -/
theorem c1_amended_single_output_first_witness :
    ∃ out rest,
      handleFunctionCall false
          { call_id := some "call_9", id := none, name := some "shell",
            arguments := some "\x7b\"command\":[\"ls\"]\x7d", function := none }
          (some { cmd := ["ls"], workdir := none, timeoutInMillis := none })
          "hello" "\x7b\"exit_code\":0\x7d" [TurnItem.other "system-message"] =
        TurnItem.functionCallOutput
          (expectedCallId
            { call_id := some "call_9", id := none, name := some "shell",
              arguments := some "\x7b\"command\":[\"ls\"]\x7d", function := none }
            (some { cmd := ["ls"], workdir := none, timeoutInMillis := none }))
          out :: rest ∧
      (TurnItem.functionCallOutput
          (expectedCallId
            { call_id := some "call_9", id := none, name := some "shell",
              arguments := some "\x7b\"command\":[\"ls\"]\x7d", function := none }
            (some { cmd := ["ls"], workdir := none, timeoutInMillis := none }))
          out :: rest).countP (fun it => it.isFunctionCallOutput) = 1 :=
  c1_amended_single_output_first
    { call_id := some "call_9", id := none, name := some "shell",
      arguments := some "\x7b\"command\":[\"ls\"]\x7d", function := none }
    (some { cmd := ["ls"], workdir := none, timeoutInMillis := none })
    "hello" "\x7b\"exit_code\":0\x7d" [TurnItem.other "system-message"]
    (by decide)

/-! ## Agent loop: `cancel()` -/

/-- The callback emissions `cancel()` can make. -/
inductive LoopEvent where
  | onLoading (b : Bool)
  | onLastResponseId (s : String)
deriving DecidableEq, Repr

/-- The `AgentLoop` instance state read and written by `cancel()`.  Abort
controllers are modelled as handles (naturals drawn from `nextHandle`);
`abortedHandles` records every controller whose `abort()` ran. -/
structure AgentLoopState where
  terminated : Bool
  canceled : Bool
  currentStream : Option Nat
  execAbortController : Option Nat
  nextHandle : Nat
  abortedHandles : List Nat
  generation : Nat
  pendingAborts : List String
  events : List LoopEvent
deriving DecidableEq, Repr

/-- The optional-chained `?.abort?.()` pattern: abort the handle if present. -/
def abortOpt (aborted : List Nat) (h : Option Nat) : List Nat :=
  match h with
  | some x => x :: aborted
  | none => aborted

/-- `AgentLoop.cancel` of agent-loop.ts, statement for statement.  Note the
source order: `this.currentStream = null;` runs *before*
`(this.currentStream as ...)?.controller?.abort?.();`, so the optional-chained
abort reads the just-nulled field. -/
def AgentLoop.cancel (s : AgentLoopState) : AgentLoopState :=
  if s.terminated then s
  else
    let s1 := { s with currentStream := none }
    let s2 := { s1 with abortedHandles := abortOpt s1.abortedHandles s1.currentStream }
    let s3 := { s2 with canceled := true }
    let s4 := { s3 with abortedHandles := abortOpt s3.abortedHandles s3.execAbortController }
    let s5 := { s4 with execAbortController := some s4.nextHandle,
                        nextHandle := s4.nextHandle + 1 }
    let s6 := if s5.pendingAborts.isEmpty
      then { s5 with events := s5.events ++ [LoopEvent.onLastResponseId ""] }
      else s5
    let s7 := { s6 with events := s6.events ++ [LoopEvent.onLoading false] }
    { s7 with generation := s7.generation + 1 }

/-- A concrete non-terminated instance with a live stream (handle 7), a live
exec abort controller (handle 3) and no pending aborts. -/
def c4State : AgentLoopState :=
  { terminated := false, canceled := false, currentStream := some 7,
    execAbortController := some 3, nextHandle := 10, abortedHandles := [],
    generation := 5, pendingAborts := [], events := [] }

/-- C4, evaluated at the failing input: after `cancel()` on a non-terminated
instance with a live stream, every postcondition of the claim holds — the
exec abort handle is aborted and replaced by a fresh one, `canceled` is set,
the generation is bumped, `on_loading(false)` is emitted, `lastResponseId` is
cleared (pendingAborts being empty) and `pendingAborts` is untouched — except
the first one: the stream controller that was current on entry (handle 7) is
never aborted, because the code nulls `this.currentStream` before invoking the
optional-chained `controller.abort`, which therefore no-ops. -/
theorem c4_cancel_stream_not_aborted :
    (AgentLoop.cancel c4State).abortedHandles = [3] ∧
    7 ∉ (AgentLoop.cancel c4State).abortedHandles ∧
    (AgentLoop.cancel c4State).canceled = true ∧
    (AgentLoop.cancel c4State).currentStream = none ∧
    (AgentLoop.cancel c4State).execAbortController = some 10 ∧
    (AgentLoop.cancel c4State).generation = 6 ∧
    (AgentLoop.cancel c4State).events =
      [LoopEvent.onLastResponseId "", LoopEvent.onLoading false] ∧
    (AgentLoop.cancel c4State).pendingAborts = [] := by
  decide

/-! ## Agent loop: the `pendingAborts` drain at the start of `run()` -/

/-- The exact JSON string `run()` synthesizes for each pending abort:
`JSON.stringify({output: "aborted", metadata: {exit_code: 1,
duration_seconds: 0}})`. -/
def ABORTED_OUTPUT_JSON : String :=
  "\x7b\"output\":\"aborted\",\"metadata\":\x7b\"exit_code\":1,\"duration_seconds\":0\x7d\x7d"

/-- The drain at agent-loop.ts lines 532–549: when `pendingAborts` is
non-empty, one synthetic `function_call_output` per pending id is prepended to
the user input and the set is cleared; when it is empty nothing is produced.
Returns `(turnInput, pendingAborts)` after the drain. -/
def drainPendingAborts (pendingAborts : List String) (input : List TurnItem) :
    List TurnItem × List String :=
  if pendingAborts.isEmpty then (input, pendingAborts)
  else
    ((pendingAborts.map fun id =>
        TurnItem.functionCallOutput (some id) ABORTED_OUTPUT_JSON) ++ input,
      [])

/-- C5: whenever `run()` starts with a non-empty `pendingAborts` set, the
first turn input is the synthetic `function_call_output` items — one per
pending call-id, each with output exactly the aborted JSON string — prepended
before all user-supplied input, the set is cleared, and a second drain is a
no-op: it produces no further synthetic outputs whatever the next input is. -/
theorem c5_pending_aborts_drain (pending : List String) (input : List TurnItem)
    (hne : pending ≠ []) :
    (drainPendingAborts pending input).1 =
      (pending.map fun id =>
        TurnItem.functionCallOutput (some id) ABORTED_OUTPUT_JSON) ++ input ∧
    (drainPendingAborts pending input).2 = [] ∧
    (∀ input2 : List TurnItem,
      drainPendingAborts (drainPendingAborts pending input).2 input2 =
        (input2, [])) := by
  have hemp : pending.isEmpty = false := by
    simpa [List.isEmpty_iff] using hne
  refine ⟨?_, ?_, ?_⟩
  · simp [drainPendingAborts, hemp]
  · simp [drainPendingAborts, hemp]
  · intro input2
    simp [drainPendingAborts, hemp]

/-- C5, witness: two pending ids get drained ahead of one user message, and
the second drain passes the next input through untouched. -/
theorem c5_pending_aborts_drain_witness :
    (drainPendingAborts ["call_a", "call_b"] [TurnItem.other "user-msg"]).1 =
      [TurnItem.functionCallOutput (some "call_a") ABORTED_OUTPUT_JSON,
        TurnItem.functionCallOutput (some "call_b") ABORTED_OUTPUT_JSON,
        TurnItem.other "user-msg"] ∧
    (drainPendingAborts ["call_a", "call_b"] [TurnItem.other "user-msg"]).2 = [] ∧
    (∀ input2 : List TurnItem,
      drainPendingAborts
          (drainPendingAborts ["call_a", "call_b"] [TurnItem.other "user-msg"]).2
          input2 =
        (input2, [])) := by
  have h := c5_pending_aborts_drain ["call_a", "call_b"]
    [TurnItem.other "user-msg"] (by decide)
  exact ⟨by rw [h.1]; rfl, h.2.1, h.2.2⟩

/-! ## Agent loop: the streaming-request retry loop -/

/-- The error-object fields the retry loop of `run()` inspects.  `isTimeout`
models `error instanceof APIConnectionTimeoutError`, `isConnectionError` the
`instanceof APIConnectionError` check; `status`, `code`, `etype` (the
object's `type`), `param`, `message` and `requestId` are the fields read off
`errCtx`. -/
structure ErrInfo where
  isTimeout : Bool
  isConnectionError : Bool
  status : Option Int
  code : Option String
  etype : Option String
  param : Option String
  message : Option String
  requestId : Option String
deriving DecidableEq, Repr

/-- Case-insensitive substring test over character lists (regex `/pat/i.test`
for a literal lowercase pattern). -/
def containsLowered : List Char → List Char → Bool
  | _, [] => true
  | [], _ => false
  | c :: cs, pat =>
    if pat.isPrefixOf (c :: cs) then true else containsLowered cs pat

def stringContainsCI (hay pat : String) : Bool :=
  containsLowered (hay.data.map Char.toLower) pat.data

/-- `typeof status === "number" && status >= 500`. -/
def isServerErrorB (e : ErrInfo) : Bool :=
  match e.status with
  | some s => decide (500 ≤ s)
  | none => false

/-- `isTimeout || isServerError || isConnectionError`. -/
def isRetryableB (e : ErrInfo) : Bool :=
  e.isTimeout || isServerErrorB e || e.isConnectionError

/-- `(errCtx.param === "max_tokens" || /max_tokens is too large/i.test(message))
&& errCtx.type === "invalid_request_error"`. -/
def isTooManyTokensB (e : ErrInfo) : Bool :=
  ((e.param == some "max_tokens") ||
      (match e.message with
        | some m => stringContainsCI m "max_tokens is too large"
        | none => false)) &&
    (e.etype == some "invalid_request_error")

/-- `status === 429 || code === "rate_limit_exceeded" || type ===
"rate_limit_exceeded" || /rate limit/i.test(message ?? "")`. -/
def isRateLimitB (e : ErrInfo) : Bool :=
  (e.status == some 429) || (e.code == some "rate_limit_exceeded") ||
    (e.etype == some "rate_limit_exceeded") ||
    stringContainsCI (e.message.getD "") "rate limit"

/-- `(400 <= status < 500 && status !== 429) || code ===
"invalid_request_error" || type === "invalid_request_error"`. -/
def isClientErrorB (e : ErrInfo) : Bool :=
  (match e.status with
    | some s => decide (400 ≤ s ∧ s < 500 ∧ s ≠ 429)
    | none => false) ||
    (e.code == some "invalid_request_error") ||
    (e.etype == some "invalid_request_error")

/-- Strip a literal prefix from a character list. -/
def stripLit : List Char → List Char → Option (List Char)
  | [], cs => some cs
  | _ :: _, [] => none
  | p :: ps, c :: cs => if c = p then stripLit ps cs else none

/-- The `([\d.]+)s` tail of the retry-hint regex: a non-empty maximal run of
digits and dots directly followed by `s` (no shorter run can match, since a
digit or dot is not an `s`). -/
def grabSeconds (cs : List Char) : Option (List Char) :=
  let run := cs.takeWhile fun c => c.isDigit || c = '.'
  if run.isEmpty then none
  else
    match (cs.drop run.length).head? with
    | some 's' => some run
    | _ => none

/-- One anchor attempt of `/(?:retry|try) again in ([\d.]+)s/i` over the
lowercased message: `retry` is tried before `try` at the same position,
exactly as the regex alternation does. -/
def hintAt (cs : List Char) : Option (List Char) :=
  match stripLit "retry again in ".data cs with
  | some rest => grabSeconds rest
  | none =>
    match stripLit "try again in ".data cs with
    | some rest => grabSeconds rest
    | none => none

/-- Leftmost match of the retry-hint regex: scan every start position. -/
def findHint : List Char → Option (List Char)
  | [] => none
  | c :: cs =>
    match hintAt (c :: cs) with
    | some r => some r
    | none => findHint cs

/-- The value of the digit run. -/
def digitsVal (ds : List Char) : Nat :=
  ds.foldl (fun n c => 10 * n + (c.toNat - '0'.toNat)) 0

/-- JavaScript `parseFloat` restricted to the captured `[\d.]+` run: the
longest valid decimal prefix, `none` when there is none (→ `NaN`, e.g. for
`"."`).  Exact rational arithmetic stands in for JavaScript's binary floating
point. -/
def parseFloatQ (cs : List Char) : Option ℚ :=
  let ip := cs.takeWhile Char.isDigit
  match cs.drop ip.length with
  | '.' :: rest2 =>
    let fp := rest2.takeWhile Char.isDigit
    if ip.isEmpty ∧ fp.isEmpty then none
    else some ((digitsVal ip : ℚ) + (digitsVal fp : ℚ) / ((10 : ℚ) ^ fp.length))
  | _ => if ip.isEmpty then none else some ((digitsVal ip : ℚ))

/-- The server-suggested delay in milliseconds: the parsed hint times 1000,
`none` when no hint matches or `parseFloat` yields `NaN`. -/
def suggestedRetryMs (msg : String) : Option ℚ :=
  match findHint (msg.data.map Char.toLower) with
  | some cap =>
    match parseFloatQ cap with
    | some q => some (q * 1000)
    | none => none
  | none => none

/-- The rate-limit delay of agent-loop.ts lines 727–738: exponential backoff
`base * 2 ^ (attempt - 1)`, overridden by the message's "try again in <N>s"
hint when it parses. -/
def rateLimitDelayMs (base : ℚ) (attempt : Nat) (e : ErrInfo) : ℚ :=
  match suggestedRetryMs (e.message.getD "") with
  | some q => q
  | none => base * 2 ^ (attempt - 1)

/-- Models `RATE_LIMIT_RETRY_WAIT_MS = parseInt(process.env
["OPENAI_RATE_LIMIT_RETRY_WAIT_MS"] || "2500", 10)`: an unset or empty
variable falls back to the literal `"2500"`; `none` models a `NaN` parse. -/
def RATE_LIMIT_RETRY_WAIT_MS (envVar : Option String) : Option ℚ :=
  let text := match envVar with
    | none => "2500"
    | some s => if s = "" then "2500" else s
  let ds := text.data.takeWhile Char.isDigit
  if ds.isEmpty then none else some ((digitsVal ds : ℚ))

/-- `errorDetails` as interpolated into the rate-limit and client-error
messages (`status || "unknown"` etc.; `0` and `""` are falsy). -/
def orUnknown (o : Option String) : String :=
  match o with
  | some s => if s = "" then "unknown" else s
  | none => "unknown"

def statusText (o : Option Int) : String :=
  match o with
  | some s => if s = 0 then "unknown" else toString s
  | none => "unknown"

def errorDetails (e : ErrInfo) : String :=
  "Status: " ++ statusText e.status ++ ", Code: " ++ orUnknown e.code ++
    ", Type: " ++ orUnknown e.etype ++ ", Message: " ++ orUnknown e.message

def contextLengthMessage : String :=
  "⚠️  The current request exceeds the maximum context length supported by the chosen model. Please shorten the conversation, run /clear, or switch to a model with a larger context window and try again."

def rateLimitMessage (e : ErrInfo) : String :=
  "⚠️  Rate limit reached. Error details: " ++ errorDetails e ++
    ". Please try again later."

def clientErrorMessage (e : ErrInfo) : String :=
  "⚠️  OpenAI rejected the request" ++
    (match e.requestId with
      | some rid => " (request ID: " ++ rid ++ ")"
      | none => "") ++
    ". Error details: " ++ errorDetails e ++
    ". Please verify your settings and try again."

/-- What one `oai.responses.create` attempt does: opens a stream, or throws
the given error. -/
inductive AttemptOutcome where
  | success
  | failure (e : ErrInfo)

/-- The observable steps of the retry loop. -/
inductive RunEvent where
  | attempted (k : Nat)
  | sleep (ms : ℚ)
  | systemMessage (text : String)
  | loadingOff
deriving DecidableEq, Repr

def RunEvent.isAttempt : RunEvent → Bool
  | .attempted _ => true
  | _ => false

/-- How the retry loop leaves `run()`: with an open stream, by returning
cleanly after a terminal system message, by rethrowing the error to the outer
handler, or (never reachable from a fresh loop) by exhausting the `for` range
without a `break`. -/
inductive StreamAttemptResult where
  | streamed
  | endedClean
  | raised
  | fellThrough
deriving DecidableEq, Repr

/-- The retry loop of `run()` (agent-loop.ts lines 609–776), with
`MAX_RETRIES = 5`: per attempt, a retryable fault (timeout / 5xx /
connection error) below the limit retries immediately; a context-length
overflow emits its dedicated message and ends the run; a rate-limit error
below the limit sleeps for `rateLimitDelayMs` and retries, and at the limit
emits one structured system message and ends the run; other client errors
emit their message and end the run; anything else is rethrown.  `outcomes k`
is the result of the `k`-th `create` call; `fuel` is the number of loop
iterations left. -/
def streamRetryLoop (outcomes : Nat → AttemptOutcome) (base : ℚ) :
    Nat → Nat → List RunEvent × StreamAttemptResult
  | 0, _ => ([], .fellThrough)
  | fuel + 1, attempt =>
    match outcomes attempt with
    | .success => ([.attempted attempt], .streamed)
    | .failure e =>
      if isRetryableB e ∧ attempt < 5 then
        let next := streamRetryLoop outcomes base fuel (attempt + 1)
        (.attempted attempt :: next.1, next.2)
      else if isTooManyTokensB e then
        ([.attempted attempt, .systemMessage contextLengthMessage, .loadingOff],
          .endedClean)
      else if isRateLimitB e then
        if attempt < 5 then
          let next := streamRetryLoop outcomes base fuel (attempt + 1)
          (.attempted attempt :: .sleep (rateLimitDelayMs base attempt e) :: next.1,
            next.2)
        else
          ([.attempted attempt, .systemMessage (rateLimitMessage e), .loadingOff],
            .endedClean)
      else if isClientErrorB e then
        ([.attempted attempt, .systemMessage (clientErrorMessage e), .loadingOff],
          .endedClean)
      else
        ([.attempted attempt], .raised)

/-- One whole streaming request: at most `MAX_RETRIES = 5` create attempts
starting at attempt 1. -/
def runStreamRequest (outcomes : Nat → AttemptOutcome) (base : ℚ) :
    List RunEvent × StreamAttemptResult :=
  streamRetryLoop outcomes base 5 1

theorem streamRetryLoop_attempts_le (outcomes : Nat → AttemptOutcome) (base : ℚ) :
    ∀ (fuel attempt : Nat),
      ((streamRetryLoop outcomes base fuel attempt).1.countP
        (fun ev => ev.isAttempt)) ≤ fuel := by
  intro fuel
  induction fuel with
  | zero => intro attempt; simp [streamRetryLoop]
  | succ n ih =>
    intro attempt
    unfold streamRetryLoop
    cases outcomes attempt with
    | success => simp [List.countP_cons, RunEvent.isAttempt]
    | failure e =>
      by_cases h1 : isRetryableB e ∧ attempt < 5
      · simp only [if_pos h1, List.countP_cons, RunEvent.isAttempt, if_true]
        have := ih (attempt + 1)
        simp only [RunEvent.isAttempt] at this
        omega
      · simp only [if_neg h1]
        by_cases h2 : isTooManyTokensB e = true
        · simp [h2, List.countP_cons, RunEvent.isAttempt]
        · simp only [h2, Bool.false_eq_true, if_false]
          by_cases h3 : isRateLimitB e = true
          · simp only [h3, if_true]
            by_cases h4 : attempt < 5
            · simp only [if_pos h4, List.countP_cons, RunEvent.isAttempt,
                if_true, Bool.false_eq_true, if_false]
              have := ih (attempt + 1)
              simp only [RunEvent.isAttempt] at this
              omega
            · simp [if_neg h4, List.countP_cons, RunEvent.isAttempt]
          · simp only [h3, Bool.false_eq_true, if_false]
            by_cases h5 : isClientErrorB e = true
            · simp [h5, List.countP_cons, RunEvent.isAttempt]
            · simp [h5, List.countP_cons, RunEvent.isAttempt]

/-- The events that are terminal system messages. -/
def RunEvent.isSystemMsg : RunEvent → Bool
  | .systemMessage _ => true
  | _ => false

/-- A failure of exactly the kind the claim's rate-limit clause names — HTTP
status 429 *or* typed `rate_limit_exceeded`, through either the error's
`code` or its `type` field — that the loop's earlier branches do not capture
first: not an `instanceof` timeout or connection error, not HTTP 5xx, and not
a context-length overflow.  (Those earlier branches fire on `instanceof`
checks, `status >= 500`, or `type = "invalid_request_error"` with a
max_tokens marker — shapes no real rate-limit failure combines with; the
loop checks them before the rate-limit test, so they are excluded here in
exactly the code's branch order.) -/
def claimRateLimitFailure (e : ErrInfo) : Prop :=
  (e.status = some 429 ∨ e.code = some "rate_limit_exceeded" ∨
    e.etype = some "rate_limit_exceeded") ∧
  e.isTimeout = false ∧ e.isConnectionError = false ∧
  isServerErrorB e = false ∧ isTooManyTokensB e = false

theorem claimRateLimitFailure_branches (e : ErrInfo)
    (h : claimRateLimitFailure e) :
    isRetryableB e = false ∧ isTooManyTokensB e = false ∧ isRateLimitB e = true := by
  obtain ⟨htrig, ht, hc, hsrv, hmany⟩ := h
  refine ⟨?_, hmany, ?_⟩
  · simp [isRetryableB, ht, hc, hsrv]
  · rcases htrig with h | h | h <;> simp [isRateLimitB, h]

/-- C6: (1) each streaming request makes at most five `create` attempts;
(2) whatever the other attempts do, an attempt `k < 5` that fails with a
rate-limit error — HTTP status 429 or typed `rate_limit_exceeded` — sleeps
for `rateLimitDelayMs base k e` and then retries, continuing with attempt
`k + 1`; (3) a successful attempt opens the stream immediately, so any mix of
rate-limit failures and success is covered by (2) plus (3); (4) when all five
attempts fail with such rate-limit errors (of possibly different shapes), the
run performs exactly five attempts with the four claimed sleeps in between
and, on exhaustion, emits exactly one terminal system message followed by
`on_loading(false)` and ends cleanly; (5) without a parsable
"try again in <N>s" hint the delay is `base * 2 ^ (k - 1)`; (6) with a hint
whose capture parses to `N` the delay is `N * 1000` instead; (7) the base
defaults to 2500 ms and follows `OPENAI_RATE_LIMIT_RETRY_WAIT_MS` when set. -/
theorem c6_retry_loop :
    (∀ (outcomes : Nat → AttemptOutcome) (base : ℚ),
      ((runStreamRequest outcomes base).1.countP (fun ev => ev.isAttempt)) ≤ 5) ∧
    (∀ (outcomes : Nat → AttemptOutcome) (base : ℚ) (fuel attempt : Nat)
        (e : ErrInfo),
      outcomes attempt = .failure e →
      claimRateLimitFailure e →
      attempt < 5 →
      streamRetryLoop outcomes base (fuel + 1) attempt =
        (RunEvent.attempted attempt ::
            RunEvent.sleep (rateLimitDelayMs base attempt e) ::
            (streamRetryLoop outcomes base fuel (attempt + 1)).1,
          (streamRetryLoop outcomes base fuel (attempt + 1)).2)) ∧
    (∀ (outcomes : Nat → AttemptOutcome) (base : ℚ) (fuel attempt : Nat),
      outcomes attempt = .success →
      streamRetryLoop outcomes base (fuel + 1) attempt =
        ([RunEvent.attempted attempt], .streamed)) ∧
    (∀ (e : Nat → ErrInfo) (base : ℚ),
      (∀ k, 1 ≤ k → k ≤ 5 → claimRateLimitFailure (e k)) →
      runStreamRequest (fun k => .failure (e k)) base =
        ([.attempted 1, .sleep (rateLimitDelayMs base 1 (e 1)),
          .attempted 2, .sleep (rateLimitDelayMs base 2 (e 2)),
          .attempted 3, .sleep (rateLimitDelayMs base 3 (e 3)),
          .attempted 4, .sleep (rateLimitDelayMs base 4 (e 4)),
          .attempted 5, .systemMessage (rateLimitMessage (e 5)), .loadingOff],
          .endedClean) ∧
      (runStreamRequest (fun k => .failure (e k)) base).1.countP
        (fun ev => ev.isSystemMsg) = 1) ∧
    (∀ (base : ℚ) (k : Nat) (e : ErrInfo),
      suggestedRetryMs (e.message.getD "") = none →
      rateLimitDelayMs base k e = base * 2 ^ (k - 1)) ∧
    (∀ (base : ℚ) (k : Nat) (e : ErrInfo) (cap : List Char) (q : ℚ),
      findHint ((e.message.getD "").data.map Char.toLower) = some cap →
      parseFloatQ cap = some q →
      rateLimitDelayMs base k e = q * 1000) ∧
    (RATE_LIMIT_RETRY_WAIT_MS none = some 2500 ∧
      RATE_LIMIT_RETRY_WAIT_MS (some "7000") = some 7000) := by
  refine ⟨?_, ?_, ?_, ?_, ?_, ?_, by decide, by decide⟩
  · intro outcomes base
    exact streamRetryLoop_attempts_le outcomes base 5 1
  · intro outcomes base fuel attempt e hout htrig hlt
    obtain ⟨hre, hmany, hrl⟩ := claimRateLimitFailure_branches e htrig
    simp [streamRetryLoop, hout, hre, hmany, hrl, hlt]
  · intro outcomes base fuel attempt hout
    simp [streamRetryLoop, hout]
  · intro e base h
    have h1 := claimRateLimitFailure_branches (e 1) (h 1 (by norm_num) (by norm_num))
    have h2 := claimRateLimitFailure_branches (e 2) (h 2 (by norm_num) (by norm_num))
    have h3 := claimRateLimitFailure_branches (e 3) (h 3 (by norm_num) (by norm_num))
    have h4 := claimRateLimitFailure_branches (e 4) (h 4 (by norm_num) (by norm_num))
    have h5 := claimRateLimitFailure_branches (e 5) (h 5 (by norm_num) (by norm_num))
    have heq : runStreamRequest (fun k => .failure (e k)) base =
        ([.attempted 1, .sleep (rateLimitDelayMs base 1 (e 1)),
          .attempted 2, .sleep (rateLimitDelayMs base 2 (e 2)),
          .attempted 3, .sleep (rateLimitDelayMs base 3 (e 3)),
          .attempted 4, .sleep (rateLimitDelayMs base 4 (e 4)),
          .attempted 5, .systemMessage (rateLimitMessage (e 5)), .loadingOff],
          .endedClean) := by
      simp [runStreamRequest, streamRetryLoop, h1.1, h1.2.1, h1.2.2,
        h2.1, h2.2.1, h2.2.2, h3.1, h3.2.1, h3.2.2, h4.1, h4.2.1, h4.2.2,
        h5.1, h5.2.1, h5.2.2]
    refine ⟨heq, ?_⟩
    rw [heq]
    simp [List.countP_cons, RunEvent.isSystemMsg]
  · intro base k e hnone
    simp [rateLimitDelayMs, hnone]
  · intro base k e cap q hfind hparse
    simp [rateLimitDelayMs, suggestedRetryMs, hfind, hparse]
